import Mathlib

/-!
# Verification of the mcp-notify-demo task lifecycle

Shallow embedding of the task/notification logic of the repository:

* `src/src/server/index.ts` — the current server: `runTask` (step loop with
  cancellation, progress notifications, sampling), the `cancel_task` handler,
  and registration of tasks in the `runningTasks` map.
* `src/test-server.ts` (embedded `LongRunningTool`) together with
  `src/src/server/old-implementation/notifications/progressNotifier.ts` —
  the old pipeline, whose notifications carry a rounded `percentage` field.
* `src/src/client/handlers/notificationHandler.ts` — the client-side
  notification history.

JS numbers are modelled as `ℚ` (all arithmetic in the program stays well within
exactly-representable ranges); `Math.round` is `round` on `ℚ` (half away from
zero coincides with half-up on the nonnegative values that occur here).
Asynchronous interleaving is modelled by an environment (`Env`) fixing, for one
run, the point at which the task's cancellation flag is first observed set, the
outcome of each sampling exchange, the outcome of each notification
transmission, and the step (if any) at which an unexpected failure is thrown.
-/

namespace McpNotify

/-! ## Data model: src/src/server/index.ts -/

/-- Parameters of `start_long_running_task` after zod validation
(`LongRunningTaskSchema`, index.ts lines 13-18). -/
structure Config where
  steps : Nat
  notificationInterval : Nat
  delayMs : Nat
  enableSampling : Bool
deriving DecidableEq

/-- A validated configuration: `steps: min(1).max(1000)`,
`notificationInterval: min(1)`, `delayMs: min(100).max(10000)`. -/
structure Validated (cfg : Config) : Prop where
  steps_pos : 1 ≤ cfg.steps
  steps_le : cfg.steps ≤ 1000
  interval_pos : 1 ≤ cfg.notificationInterval
  delay_lb : 100 ≤ cfg.delayMs
  delay_ub : cfg.delayMs ≤ 10000

/-- The `type` field of the notifications emitted by `runTask`. -/
inductive EKind where
  | start
  | progress
  | samplingResponse
  | samplingError
  | completion
  | cancelled
  | error
deriving DecidableEq

/-- One notification as built by `runTask` (`server.notification({...})`).
`progressField` is the top-level `progress` param, which only some of the
notifications carry; `step`/`totalSteps` are the `data.step`/`data.totalSteps`
fields.  Free-text `message`, `timestamp` and the `progressToken` string are
display/correlation data only and are not modelled. -/
structure Event where
  kind : EKind
  step : Nat
  totalSteps : Nat
  progressField : Option ℚ
deriving DecidableEq

/-- index.ts lines 157-174: `progress: 0`, step 0. -/
def startEvent (cfg : Config) : Event :=
  { kind := .start, step := 0, totalSteps := cfg.steps, progressField := some 0 }

/-- index.ts lines 189-208: the per-step progress notification.  Its params
carry no top-level `progress` value (only `progressToken`/`data`). -/
def progressEvent (cfg : Config) (i : Nat) : Event :=
  { kind := .progress, step := i, totalSteps := cfg.steps, progressField := none }

/-- index.ts lines 238-254. -/
def samplingRespEvent (cfg : Config) (i : Nat) : Event :=
  { kind := .samplingResponse, step := i, totalSteps := cfg.steps, progressField := none }

/-- index.ts lines 256-273. -/
def samplingErrEvent (cfg : Config) (i : Nat) : Event :=
  { kind := .samplingError, step := i, totalSteps := cfg.steps, progressField := none }

/-- index.ts lines 277-295: `progress: 100`, step `config.steps`. -/
def completionEvent (cfg : Config) : Event :=
  { kind := .completion, step := cfg.steps, totalSteps := cfg.steps,
    progressField := some 100 }

/-- index.ts lines 296-315: `progress: (currentStep / config.steps) * 100`
(not rounded), step `currentStep`. -/
def cancelledEvent (cfg : Config) (cur : Nat) : Event :=
  { kind := .cancelled, step := cur, totalSteps := cfg.steps,
    progressField := some ((cur : ℚ) / (cfg.steps : ℚ) * 100) }

/-- index.ts lines 316-334: the catch-branch `error` notification, with
`progress: (currentStep / config.steps) * 100`. -/
def errorEvent (cfg : Config) (cur : Nat) : Event :=
  { kind := .error, step := cur, totalSteps := cfg.steps,
    progressField := some ((cur : ℚ) / (cfg.steps : ℚ) * 100) }

/-! ## One run of `runTask` (index.ts lines 155-339)

The `cancelled` flag is a plain boolean closed over by the task; the cancel
handler can only set it (never clear it), and only while the executor is
suspended at an `await`.  Monotonicity lets us represent one run's flag by the
first observation point at which it reads `true`.  Observation points of the
flag are numbered: the loop guard of iteration `i` (`i <= steps && !cancelled`)
is point `2*i - 2`, the post-wait check of iteration `i` (`if (cancelled)
break`) is point `2*i - 1`, and the final `if (!cancelled)` after the loop is
point `2*steps`. -/

/-- The nondeterministic choices resolved for one run of `runTask`:
`cancelAt` — the first observation point at which the cancellation flag reads
`true` (`none` = never cancelled); `samplingOk i` — whether the
`server.createMessage` exchange at step `i` succeeds; `sendOk k i` — whether
the transmission of the notification of kind `k` at step `i` is delivered
(transmission runs asynchronously and its outcome is invisible to the
executor; the protected progress emission additionally catches synchronous
throws, index.ts lines 189-208); `exnAt` — the step during whose body an
unexpected synchronous failure is thrown (`some 0` = during the start
emission, `none` = no failure).  This is the only path into the catch branch
at index.ts lines 316-334. -/
structure Env where
  cancelAt : Option Nat
  samplingOk : Nat → Bool
  sendOk : EKind → Nat → Bool
  exnAt : Option Nat

/-- Value of the cancellation flag at observation point `k`. -/
def flagAt (env : Env) (k : Nat) : Bool :=
  match env.cancelAt with
  | none => false
  | some c => decide (c ≤ k)

/-- An attempted notification transmission together with its outcome.  The
outcome never influences the executor (the send is not awaited; the progress
send's synchronous throws are caught and logged at index.ts lines 206-208). -/
structure Emission where
  ev : Event
  delivered : Bool
deriving DecidableEq

/-- Attempt to send event `e` (`server.notification({...})`). -/
def send (env : Env) (e : Event) : Emission :=
  { ev := e, delivered := env.sendOk e.kind e.step }

/-- How the `for` loop of `runTask` was left. -/
inductive ExitKind where
  | normal
  | cancelBreak
  | threw
deriving DecidableEq

/-- The emissions performed by the body of loop iteration `i` of `runTask`
once it is past the post-wait cancellation check (index.ts lines 185-274): the
progress notification is sent unconditionally — `notificationInterval` does
not gate it, it gates only the sampling exchange (`enableSampling &&
i % notificationInterval === 0`, index.ts line 211), whose success or failure
is reported as a `sampling_response` / `sampling_error` notification. -/
def stepEmissions (cfg : Config) (env : Env) (i : Nat) : List Emission :=
  send env (progressEvent cfg i) ::
    (if cfg.enableSampling && i % cfg.notificationInterval == 0 then
      if env.samplingOk i then [send env (samplingRespEvent cfg i)]
      else [send env (samplingErrEvent cfg i)]
    else [])

/-- The `for (let i = 1; i <= config.steps && !cancelled; i++)` loop of
`runTask` (index.ts lines 176-275), started at iteration `i` with
`currentStep = cur`; `fuel` is the number of remaining iterations
(`cfg.steps + 1 - i`), making the recursion structural.  Returns the emissions
of the remaining iterations, the final value of `currentStep`, and how the
loop exited.  Per iteration, in source order: the loop guard reads the flag
(exit keeps `currentStep = cur`); `currentStep = i` is assigned; the `delayMs`
wait suspends; the post-wait check reads the flag and `break`s without
emitting anything for step `i` (but with the counter already advanced to `i`);
an unexpected synchronous failure inside the body is admitted at this point;
otherwise the body emits `stepEmissions` and the loop continues. -/
def runSteps (cfg : Config) (env : Env) : Nat → Nat → Nat → List Emission × Nat × ExitKind
  | 0, _, cur => ([], cur, .normal)
  | fuel + 1, i, cur =>
    if flagAt env (2 * i - 2) then ([], cur, .cancelBreak)
    else if flagAt env (2 * i - 1) then ([], i, .cancelBreak)
    else if env.exnAt = some i then ([], i, .threw)
    else
      let rest := runSteps cfg env fuel (i + 1) i
      (stepEmissions cfg env i ++ rest.1, rest.2)

/-- The full emission trace of one run of `runTask` (index.ts lines 155-339).
The start notification is sent first; the loop runs; the terminal notification
is decided by the `if (!cancelled)` check after the loop (flag observation
point `2*steps`) — unless an unexpected failure was thrown, in which case the
catch branch emits the `error` notification.  `exnAt = some 0` models a throw
during the start emission itself (with `currentStep` still 0). -/
def runTaskEmissions (cfg : Config) (env : Env) : List Emission :=
  if env.exnAt = some 0 then
    [send env (errorEvent cfg 0)]
  else
    let r := runSteps cfg env cfg.steps 1 0
    let terminal : Event :=
      if r.2.2 = ExitKind.threw then errorEvent cfg r.2.1
      else if flagAt env (2 * cfg.steps) then cancelledEvent cfg r.2.1
      else completionEvent cfg
    send env (startEvent cfg) :: r.1 ++ [send env terminal]

/-- The events of one run, with transmission outcomes erased. -/
def runTaskEvents (cfg : Config) (env : Env) : List Event :=
  (runTaskEmissions cfg env).map Emission.ev

/-- Closed form for the emissions of `n` consecutive uninterrupted loop
iterations starting at step `i`. -/
def rangeEmissions (cfg : Config) (env : Env) (i : Nat) : Nat → List Emission
  | 0 => []
  | n + 1 => stepEmissions cfg env i ++ rangeEmissions cfg env (i + 1) n

/-- Registry-affecting actions of the task, interleaved with its emissions. -/
inductive Action where
  | notify (em : Emission)
  | removeTask
deriving DecidableEq

/-- The try/catch body of `runTask` performs no registry operation; the single
`runningTasks.delete(taskId)` sits in the `finally` block (index.ts lines
335-338) and therefore runs after the body on every path. -/
def runTaskActions (cfg : Config) (env : Env) : List Action :=
  (runTaskEmissions cfg env).map Action.notify ++ [Action.removeTask]

/-- Whether an action is the registry removal. -/
def isRemove : Action → Bool
  | Action.removeTask => true
  | Action.notify _ => false

/-- An environment with no cancellation, no sampling failure, no transmission
failure and no unexpected failure. -/
def benign : Env :=
  { cancelAt := none, samplingOk := fun _ => true, sendOk := fun _ _ => true,
    exnAt := none }

/-! ## The task registry and the tool handlers (index.ts lines 24-121)

`runningTasks` is a `Map<string, TaskInfo>`, modelled as an association list
with at most one entry per key.  JS `Map.get` / `Map.set` / `Map.delete` are
`mapGet` / `mapSet` / `mapDelete`. -/

/-- The per-task handle stored in `runningTasks` (index.ts lines 25-30).  The
`cancel` closure sets the executor's flag; invoking it is recorded by the
caller, not stored here. -/
structure TaskInfo where
  currentStep : Nat
  totalSteps : Nat
  cancelled : Bool
deriving DecidableEq

/-- The `runningTasks` map. -/
abbrev Registry := List (String × TaskInfo)

/-- JS `Map.get`: the value under `k`, if present. -/
def mapGet (reg : Registry) (k : String) : Option TaskInfo :=
  match reg with
  | [] => none
  | (k₀, v₀) :: rest => if k₀ = k then some v₀ else mapGet rest k

/-- JS `Map.set`: replaces the entry under `k` if present, appends otherwise.
It never signals a duplicate. -/
def mapSet (reg : Registry) (k : String) (v : TaskInfo) : Registry :=
  match reg with
  | [] => [(k, v)]
  | (k₀, v₀) :: rest => if k₀ = k then (k, v) :: rest else (k₀, v₀) :: mapSet rest k v

/-- JS `Map.delete`: removes the entry under `k`; a no-op if absent. -/
def mapDelete (reg : Registry) (k : String) : Registry :=
  match reg with
  | [] => []
  | (k₀, v₀) :: rest => if k₀ = k then rest else (k₀, v₀) :: mapDelete rest k

/-- Registration of a freshly started task
(`runningTasks.set(taskId, taskInfo)`, index.ts line 81).  There is no
duplicate check anywhere in the repository: `Map.set` silently overwrites. -/
def registerTask (reg : Registry) (taskId : String) (info : TaskInfo) : Registry :=
  mapSet reg taskId info

/-- A tool call result (`{content: [...], isError?}`). -/
structure ToolReply where
  text : String
  isError : Bool
deriving DecidableEq

/-- Everything the `cancel_task` handler does in one call. -/
structure CancelOutcome where
  reply : ToolReply
  registry : Registry
  /-- whether `task.cancel()` was invoked (setting the executor's flag). -/
  cancelInvoked : Bool
  /-- notifications emitted by the handler itself (always none). -/
  emitted : List Event

/-- The `cancel_task` branch of the `CallToolRequestSchema` handler (index.ts
lines 93-121).  `Map.get` and `Map.delete` cannot throw, so the handler is a
total function: a missing task yields the non-fatal `isError` text result, not
an exception (and the surrounding try/catch at lines 66-138 would convert any
throw into an error result rather than a transport fault). -/
def cancelTask (reg : Registry) (taskId : String) : CancelOutcome :=
  match mapGet reg taskId with
  | some _ =>
    { reply := { text := "Cancelled task " ++ taskId, isError := false },
      registry := mapDelete reg taskId,
      cancelInvoked := true,
      emitted := [] }
  | none =>
    { reply := { text := "Task " ++ taskId ++ " not found", isError := true },
      registry := reg,
      cancelInvoked := false,
      emitted := [] }

/-! ## The old pipeline: `LongRunningTool.execute` with `ProgressNotifier`

`src/test-server.ts` (embedded `LongRunningTool`) drives the loop;
`src/src/server/old-implementation/notifications/progressNotifier.ts` builds
`ProgressNotification` records with a rounded integer `percentage` and sends
them, swallowing transport failures.  `LongRunningToolParams` has exactly the
fields of `Config`, so `Config` is reused. -/

/-- `NotificationType` of shared/types.ts. -/
inductive NKind where
  | progress
  | status
  | error
  | completion
deriving DecidableEq

/-- `Math.round((step / totalSteps) * 100)` — JS `Math.round` rounds half
toward +∞, which is `round` on `ℚ` for the nonnegative values arising here. -/
def pct100 (step totalSteps : Nat) : ℤ :=
  round ((step : ℚ) / (totalSteps : ℚ) * 100)

/-- A `ProgressNotification` record (shared/types.ts); `message` and
`timestamp` are display-only free text and are not modelled; of the metadata,
the completion counters `(completedSteps, notificationsSent,
samplingRequests)` are kept. -/
structure PNote where
  kind : NKind
  step : Nat
  totalSteps : Nat
  percentage : ℤ
  counters : Option (Nat × Nat × Nat)
deriving DecidableEq

/-- progressNotifier.ts lines 15-32 (`sendProgressNotification`). -/
def mkProgressNote (step totalSteps : Nat) : PNote :=
  { kind := .progress, step := step, totalSteps := totalSteps,
    percentage := pct100 step totalSteps, counters := none }

/-- progressNotifier.ts lines 37-54 (`sendStatusNotification`). -/
def mkStatusNote (step totalSteps : Nat) : PNote :=
  { kind := .status, step := step, totalSteps := totalSteps,
    percentage := pct100 step totalSteps, counters := none }

/-- progressNotifier.ts lines 59-76 (`sendErrorNotification`). -/
def mkErrorNote (step totalSteps : Nat) : PNote :=
  { kind := .error, step := step, totalSteps := totalSteps,
    percentage := pct100 step totalSteps, counters := none }

/-- progressNotifier.ts lines 81-101 (`sendCompletionNotification`):
`step := totalSteps`, `percentage: 100` hardcoded; the metadata carries the
aggregate counters. -/
def mkCompletionNote (totalSteps completedSteps notifSent samplReq : Nat) : PNote :=
  { kind := .completion, step := totalSteps, totalSteps := totalSteps,
    percentage := 100, counters := some (completedSteps, notifSent, samplReq) }

/-- The transport send (`this.server.sendNotification`), which may fail. -/
def transportSend (n : PNote) (ok : Bool) : Except String PNote :=
  if ok then Except.ok n else Except.error "transport failure"

/-- What one call of `ProgressNotifier.sendNotification` leaves behind: the
attempted note, whether it was delivered, and whether the failure was logged
to stderr. -/
structure SendEffect where
  note : PNote
  delivered : Bool
  loggedError : Bool
deriving DecidableEq

/-- progressNotifier.ts lines 106-115: the awaited transport send is wrapped
in try/catch; a failure is logged via `console.error` and swallowed.  The
function is total: no exception reaches the caller. -/
def sendNotification (n : PNote) (ok : Bool) : SendEffect :=
  match transportSend n ok with
  | Except.ok m => { note := m, delivered := true, loggedError := false }
  | Except.error _ => { note := n, delivered := false, loggedError := true }

/-- `ToolExecutionResult` (shared/types.ts); `executionTimeMs` is wall-clock
time and is not modelled. -/
structure ExecResult where
  success : Bool
  totalSteps : Nat
  completedSteps : Nat
  notificationsSent : Nat
  samplingRequests : Nat
deriving DecidableEq

/-- The `for (let step = 1; step <= params.steps; step++)` loop of
`LongRunningTool.execute` (test-server.ts embedded file, lines 134-163),
with `fuel` remaining iterations, at iteration `i`, having already attempted
`notifSent` notifications, counted `samplReq` successful sampling exchanges,
and completed step `completed`.  Per iteration: delay; if
`step % notificationInterval === 0` a progress notification is attempted
(`sendOk` indexed by the attempt number); if `enableSampling && step %
Math.max(notificationInterval * 2, 1) === 0` the sampling exchange runs —
`requestSampling` returns `null` on failure (its own try/catch) and `execute`
additionally catches, so a failure only skips the `samplingRequests`
increment; finally `completedSteps = step`. -/
def execSteps (p : Config) (samplingOk : Nat → Bool) (sendOk : Nat → Bool) :
    Nat → Nat → Nat → Nat → Nat → List SendEffect × Nat × Nat × Nat
  | 0, _, notifSent, samplReq, completed => ([], notifSent, samplReq, completed)
  | fuel + 1, i, notifSent, samplReq, completed =>
    let progPart : List SendEffect × Nat :=
      if i % p.notificationInterval == 0 then
        ([sendNotification (mkProgressNote i p.steps) (sendOk notifSent)], notifSent + 1)
      else ([], notifSent)
    let samplReq' :=
      if p.enableSampling && i % (max (p.notificationInterval * 2) 1) == 0 && samplingOk i then
        samplReq + 1
      else samplReq
    let _ := completed
    let rest := execSteps p samplingOk sendOk fuel (i + 1) progPart.2 samplReq' i
    (progPart.1 ++ rest.1, rest.2)

/-- `LongRunningTool.execute` (test-server.ts embedded file, lines 113-213):
initial status notification, the step loop, the completion notification, and
the success result.  The catch branch (lines 190-212, error notification and
failure result) is unreachable here: the notifier and the sampling exchange
swallow their own failures and the delay does not throw, so the modelled body
has no exception source. -/
def execute (p : Config) (samplingOk : Nat → Bool) (sendOk : Nat → Bool) :
    List SendEffect × ExecResult :=
  let first := sendNotification (mkStatusNote 0 p.steps) (sendOk 0)
  let r := execSteps p samplingOk sendOk p.steps 1 1 0 0
  let last := sendNotification
    (mkCompletionNote p.steps r.2.2.2 r.2.1 r.2.2.1) (sendOk r.2.1)
  (first :: r.1 ++ [last],
   { success := true, totalSteps := p.steps, completedSteps := r.2.2.2,
     notificationsSent := r.2.1 + 1, samplingRequests := r.2.2.1 })

/-- The notes of an `execute` run, with transmission outcomes erased. -/
def executeNotes (p : Config) (samplingOk : Nat → Bool) (sendOk : Nat → Bool) :
    List PNote :=
  (execute p samplingOk sendOk).1.map SendEffect.note

/-! ## The client notification history
(src/src/client/handlers/notificationHandler.ts)

To make the copying in `getNotificationHistory` (`return
[...this.notifications]`) observable, JS arrays are modelled as references
into a store of arrays; the handler holds the reference of
`this.notifications`. -/

/-- A heap of JS arrays of notifications; reference = index. -/
structure Store where
  arrays : List (List PNote)

/-- Dereference an array (out-of-range reads give the empty array). -/
def readArr (s : Store) (r : Nat) : List PNote :=
  s.arrays.getD r []

/-- Mutate the array behind reference `r` in place. -/
def writeArr (s : Store) (r : Nat) (v : List PNote) : Store :=
  ⟨s.arrays.set r v⟩

/-- Allocate a fresh array, returning its reference. -/
def allocArr (s : Store) (v : List PNote) : Store × Nat :=
  (⟨s.arrays ++ [v]⟩, s.arrays.length)

/-- The client-side handler object; `ref` is `this.notifications`
(notificationHandler.ts line 9). -/
structure NHandler where
  ref : Nat

/-- notificationHandler.ts lines 21-42: `this.notifications.push(params)`
followed by display only — exactly one entry is appended to the internal
list. -/
def NHandler.handleNotification (h : NHandler) (s : Store) (p : PNote) : Store :=
  writeArr s h.ref (readArr s h.ref ++ [p])

/-- notificationHandler.ts lines 156-158: `return [...this.notifications]` —
a fresh array holding a copy of the internal list. -/
def NHandler.getNotificationHistory (h : NHandler) (s : Store) : Store × Nat :=
  allocArr s (readArr s h.ref)

/-- notificationHandler.ts lines 170-178: per-kind counts over the internal
list. -/
def NHandler.getStatistics (h : NHandler) (s : Store) (k : NKind) : Nat :=
  (readArr s h.ref).countP (fun n => decide (n.kind = k))

/-! ## Concrete fixtures used as counterexamples and witnesses -/

/-- `{steps: 2, notificationInterval: 2, delayMs: 100, enableSampling: false}`. -/
def cfg22 : Config :=
  { steps := 2, notificationInterval := 2, delayMs := 100, enableSampling := false }

/-- `{steps: 3, notificationInterval: 1, delayMs: 100, enableSampling: false}`. -/
def cfg31 : Config :=
  { steps := 3, notificationInterval := 1, delayMs := 100, enableSampling := false }

/-- `{steps: 2, notificationInterval: 1, delayMs: 100, enableSampling: true}`. -/
def cfg21s : Config :=
  { steps := 2, notificationInterval := 1, delayMs := 100, enableSampling := true }

/-- A run in which `cancel_task` lands while the executor is suspended in the
`delayMs` wait of step 2, so the flag is first observed at the post-wait check
of iteration 2 (observation point `2*2 - 1 = 3`). -/
def envCancelW2 : Env :=
  { cancelAt := some 3, samplingOk := fun _ => true, sendOk := fun _ _ => true,
    exnAt := none }

/-- A run in which every sampling exchange fails (e.g. the client does not
implement the sampling capability). -/
def envAllSamplingFail : Env :=
  { cancelAt := none, samplingOk := fun _ => false, sendOk := fun _ _ => true,
    exnAt := none }

/-- A task handle fixture. -/
def infoA : TaskInfo := { currentStep := 0, totalSteps := 3, cancelled := false }

/-- A second, different task handle fixture. -/
def infoB : TaskInfo := { currentStep := 0, totalSteps := 5, cancelled := false }

/-- A one-entry registry fixture. -/
def reg1 : Registry := [("task-1", infoA)]

/-- A notification fixture. -/
def note0 : PNote := mkStatusNote 0 3

/-- A second notification fixture. -/
def note1 : PNote := mkProgressNote 1 3

/-- A store holding one handler-owned array (reference 0). -/
def store0 : Store := ⟨[[note0]]⟩

/-- A handler whose `this.notifications` is reference 0. -/
def handler0 : NHandler := { ref := 0 }

/-! ## Supporting lemmas about the `runTask` loop -/

lemma flagAt_none {env : Env} (h : env.cancelAt = none) (k : Nat) :
    flagAt env k = false := by
  simp [flagAt, h]

lemma flagAt_some {env : Env} {c : Nat} (h : env.cancelAt = some c) (k : Nat) :
    flagAt env k = decide (c ≤ k) := by
  simp [flagAt, h]

/-- With no cancellation and no unexpected failure the loop runs all
iterations and exits normally with `currentStep` at the last step. -/
lemma runSteps_no_cancel (cfg : Config) (env : Env) (hc : env.cancelAt = none)
    (he : env.exnAt = none) :
    ∀ fuel i cur, runSteps cfg env fuel i cur =
      (rangeEmissions cfg env i fuel, (if fuel = 0 then cur else i + fuel - 1),
        ExitKind.normal) := by
  intro fuel
  induction fuel with
  | zero => intro i cur; simp [runSteps, rangeEmissions]
  | succ n ih =>
    intro i cur
    simp only [runSteps, flagAt_none hc, he, Bool.false_eq_true, if_false,
      reduceCtorEq, ih (i + 1) i, rangeEmissions]
    have h2 : (if n = 0 then i else i + 1 + n - 1) = i + (n + 1) - 1 := by
      by_cases hn : n = 0
      · simp [hn]
      · rw [if_neg hn]; omega
    rw [h2]

/-- If the flag is first observed at the post-wait check of iteration `N`
(observation point `2*N - 1`), the loop performs iterations `i..N-1` in full
and breaks out of iteration `N` with `currentStep` already advanced to `N`. -/
lemma runSteps_cancel_post (cfg : Config) (env : Env) (N : Nat)
    (hc : env.cancelAt = some (2 * N - 1)) (he : env.exnAt = none) (hN : 1 ≤ N) :
    ∀ fuel i cur, 1 ≤ i → i ≤ N → N < i + fuel →
      runSteps cfg env fuel i cur =
        (rangeEmissions cfg env i (N - i), N, ExitKind.cancelBreak) := by
  intro fuel
  induction fuel with
  | zero => intro i cur h1 h2 h3; omega
  | succ n ih =>
    intro i cur h1 h2 h3
    by_cases hiN : i = N
    · subst hiN
      simp only [runSteps, flagAt_some hc]
      rw [if_neg (by simp; omega), if_pos (by simp)]
      simp [rangeEmissions]
    · have hlt : i < N := lt_of_le_of_ne h2 hiN
      simp only [runSteps, flagAt_some hc]
      rw [if_neg (by simp; omega), if_neg (by simp; omega), if_neg (by simp [he])]
      rw [ih (i + 1) i (by omega) (by omega) (by omega)]
      have hr : N - i = (N - (i + 1)) + 1 := by omega
      rw [hr]
      simp [rangeEmissions]

/-- If the flag is first observed at the loop guard of iteration `N`
(observation point `2*N - 2`), the loop performs iterations `i..N-1` in full
and exits at the guard of iteration `N` with `currentStep` not advanced. -/
lemma runSteps_cancel_guard (cfg : Config) (env : Env) (N : Nat)
    (hc : env.cancelAt = some (2 * N - 2)) (he : env.exnAt = none) (hN : 1 ≤ N) :
    ∀ fuel i cur, 1 ≤ i → i ≤ N → N < i + fuel →
      runSteps cfg env fuel i cur =
        (rangeEmissions cfg env i (N - i), (if i = N then cur else N - 1),
          ExitKind.cancelBreak) := by
  intro fuel
  induction fuel with
  | zero => intro i cur h1 h2 h3; omega
  | succ n ih =>
    intro i cur h1 h2 h3
    by_cases hiN : i = N
    · subst hiN
      simp only [runSteps, flagAt_some hc]
      rw [if_pos (by simp)]
      simp [rangeEmissions]
    · have hlt : i < N := lt_of_le_of_ne h2 hiN
      simp only [runSteps, flagAt_some hc]
      rw [if_neg (by simp; omega), if_neg (by simp; omega), if_neg (by simp [he])]
      rw [ih (i + 1) i (by omega) (by omega) (by omega)]
      have hr : N - i = (N - (i + 1)) + 1 := by omega
      have hcur : (if i + 1 = N then i else N - 1) = N - 1 := by
        by_cases h : i + 1 = N
        · rw [if_pos h]; omega
        · rw [if_neg h]
      rw [hr, hcur, if_neg hiN]
      simp [rangeEmissions]

/-- Closed form of a full, uncancelled, failure-free run: start notification,
all loop iterations, completion notification. -/
lemma runTaskEmissions_no_cancel (cfg : Config) (env : Env)
    (hc : env.cancelAt = none) (he : env.exnAt = none) :
    runTaskEmissions cfg env =
      send env (startEvent cfg) :: rangeEmissions cfg env 1 cfg.steps ++
        [send env (completionEvent cfg)] := by
  rw [runTaskEmissions, if_neg (by simp [he])]
  rw [runSteps_no_cancel cfg env hc he cfg.steps 1 0]
  simp [flagAt_none hc]

/-- Closed form of a run cancelled at the post-wait check of iteration `N`:
start notification, iterations `1..N-1`, then the cancelled notification with
step `N` — the counter was already advanced to `N` before the wait even
though nothing was emitted for step `N`. -/
lemma runTaskEmissions_cancel_post (cfg : Config) (env : Env) (N : Nat)
    (hc : env.cancelAt = some (2 * N - 1)) (he : env.exnAt = none)
    (hN1 : 1 ≤ N) (hN2 : N ≤ cfg.steps) :
    runTaskEmissions cfg env =
      send env (startEvent cfg) :: rangeEmissions cfg env 1 (N - 1) ++
        [send env (cancelledEvent cfg N)] := by
  rw [runTaskEmissions, if_neg (by simp [he])]
  rw [runSteps_cancel_post cfg env N hc he hN1 cfg.steps 1 0 le_rfl hN1 (by omega)]
  simp [flagAt_some hc]
  rw [if_pos (by omega)]

/-- Closed form of a run cancelled at the loop guard of iteration `N`: start
notification, iterations `1..N-1`, then the cancelled notification with step
`N - 1` (the counter was not advanced). -/
lemma runTaskEmissions_cancel_guard (cfg : Config) (env : Env) (N : Nat)
    (hc : env.cancelAt = some (2 * N - 2)) (he : env.exnAt = none)
    (hN1 : 1 ≤ N) (hN2 : N ≤ cfg.steps) :
    runTaskEmissions cfg env =
      send env (startEvent cfg) :: rangeEmissions cfg env 1 (N - 1) ++
        [send env (cancelledEvent cfg (N - 1))] := by
  rw [runTaskEmissions, if_neg (by simp [he])]
  rw [runSteps_cancel_guard cfg env N hc he hN1 cfg.steps 1 0 le_rfl hN1 (by omega)]
  have hcur : (if 1 = N then 0 else N - 1) = N - 1 := by
    by_cases h : 1 = N
    · rw [if_pos h]; omega
    · rw [if_neg h]
  rw [hcur]
  simp [flagAt_some hc]
  rw [if_pos (by omega)]

/-- Every event of the loop emissions is a progress or sampling event for a
step in `[i, i+n)`, and none of them carries a `progress` param. -/
lemma rangeEmissions_kinds (cfg : Config) (env : Env) :
    ∀ n i, ∀ e ∈ (rangeEmissions cfg env i n).map Emission.ev,
      (e.kind = EKind.progress ∨ e.kind = EKind.samplingResponse ∨
        e.kind = EKind.samplingError) ∧
      e.progressField = none ∧ i ≤ e.step ∧ e.step < i + n := by
  intro n
  induction n with
  | zero => intro i e he; simp [rangeEmissions] at he
  | succ m ih =>
    intro i e he
    simp only [rangeEmissions, stepEmissions, List.map_append, List.map_cons,
      List.mem_append, List.mem_cons] at he
    rcases he with (he | he) | he
    · subst he
      simp [send, progressEvent]
    · rcases hif : (if cfg.enableSampling && i % cfg.notificationInterval == 0 then
        if env.samplingOk i then [send env (samplingRespEvent cfg i)]
        else [send env (samplingErrEvent cfg i)] else []) with _ | ⟨a, rest⟩
      · rw [hif] at he; simp at he
      · rw [hif] at he
        have ha : e = a.ev ∨ e ∈ rest.map Emission.ev := by
          simpa using he
        have hshape : (a = send env (samplingRespEvent cfg i) ∨
            a = send env (samplingErrEvent cfg i)) ∧ rest = [] := by
          by_cases h1 : cfg.enableSampling && i % cfg.notificationInterval == 0
          · rw [if_pos h1] at hif
            by_cases h2 : env.samplingOk i
            · rw [if_pos h2] at hif
              exact ⟨Or.inl (by injection hif with h _; exact h.symm),
                by injection hif with _ h; exact h.symm⟩
            · rw [if_neg h2] at hif
              exact ⟨Or.inr (by injection hif with h _; exact h.symm),
                by injection hif with _ h; exact h.symm⟩
          · rw [if_neg h1] at hif; simp at hif
        rcases ha with ha | ha
        · rcases hshape.1 with h | h <;> subst h <;> subst ha <;>
            simp [send, samplingRespEvent, samplingErrEvent]
        · rw [hshape.2] at ha; simp at ha
    · have := ih (i + 1) e he
      refine ⟨this.1, this.2.1, by omega, by omega⟩

/-- The progress events among the loop emissions are exactly one per step of
`[i, i+n)`, in order — independently of the sampling outcomes and of the
transmission outcomes. -/
lemma rangeEmissions_progress (cfg : Config) (env : Env) :
    ∀ n i, ((rangeEmissions cfg env i n).map Emission.ev).filter
        (fun e => decide (e.kind = EKind.progress)) =
      (List.range' i n).map (progressEvent cfg) := by
  intro n
  induction n with
  | zero => intro i; simp [rangeEmissions]
  | succ m ih =>
    intro i
    simp only [rangeEmissions, stepEmissions, List.map_append, List.map_cons,
      List.filter_append, List.filter_cons, List.range', List.map_cons]
    rw [if_pos (by simp [progressEvent, send])]
    have hsampl : ((if cfg.enableSampling && i % cfg.notificationInterval == 0 then
        if env.samplingOk i then [send env (samplingRespEvent cfg i)]
        else [send env (samplingErrEvent cfg i)] else []).map Emission.ev).filter
          (fun e => decide (e.kind = EKind.progress)) = [] := by
      by_cases h1 : cfg.enableSampling && i % cfg.notificationInterval == 0
      · rw [if_pos h1]
        by_cases h2 : env.samplingOk i
        · rw [if_pos h2]; simp [send, samplingRespEvent]
        · rw [if_neg h2]; simp [send, samplingErrEvent]
      · rw [if_neg h1]; simp
    rw [hsampl, ih (i + 1)]
    simp [send, progressEvent]

/-- A failed sampling exchange at a cadence step inside the executed range
leaves a `sampling_error` event in the loop emissions. -/
lemma rangeEmissions_samplingErr (cfg : Config) (env : Env)
    (hs : cfg.enableSampling = true) :
    ∀ n i j, i ≤ j → j < i + n → j % cfg.notificationInterval = 0 →
      env.samplingOk j = false →
      samplingErrEvent cfg j ∈ (rangeEmissions cfg env i n).map Emission.ev := by
  intro n
  induction n with
  | zero => intro i j h1 h2; omega
  | succ m ih =>
    intro i j h1 h2 h3 h4
    simp only [rangeEmissions, stepEmissions, List.map_append, List.map_cons,
      List.mem_append, List.mem_cons]
    by_cases hij : j = i
    · subst hij
      left; right
      rw [if_pos (by simp [hs, h3]), if_neg (by simp [h4])]
      simp [send]
    · right
      exact ih (i + 1) j (by omega) (by omega) h3 h4

/-- `currentStep` never exceeds the last step of the planned range. -/
lemma runSteps_cur_le (cfg : Config) (env : Env) :
    ∀ fuel i cur, (runSteps cfg env fuel i cur).2.1 ≤ max cur (i + fuel - 1) := by
  intro fuel
  induction fuel with
  | zero => intro i cur; simp [runSteps]
  | succ n ih =>
    intro i cur
    simp only [runSteps]
    by_cases h1 : flagAt env (2 * i - 2)
    · rw [if_pos h1]; simp
    · rw [if_neg h1]
      by_cases h2 : flagAt env (2 * i - 1)
      · rw [if_pos h2]
        exact le_max_of_le_right (show i ≤ i + (n + 1) - 1 by omega)
      · rw [if_neg h2]
        by_cases h3 : env.exnAt = some i
        · rw [if_pos h3]
          exact le_max_of_le_right (show i ≤ i + (n + 1) - 1 by omega)
        · rw [if_neg h3]
          have := ih (i + 1) i
          simp only []
          calc (runSteps cfg env n (i + 1) i).2.1 ≤ max i (i + 1 + n - 1) := this
            _ ≤ max cur (i + (n + 1) - 1) := by
              apply max_le
              · apply le_max_of_le_right; omega
              · apply le_max_of_le_right; omega

/-! ## Numeric lemmas -/

lemma round_mono_rat {x y : ℚ} (h : x ≤ y) : round x ≤ round y := by
  rw [round_eq, round_eq]
  exact Int.floor_le_floor (by linarith)

lemma pct100_mono (T : Nat) {s t : Nat} (h : s ≤ t) : pct100 s T ≤ pct100 t T := by
  rcases Nat.eq_zero_or_pos T with hT | hT
  · subst hT; simp [pct100]
  · apply round_mono_rat
    have hT' : (0 : ℚ) < (T : ℚ) := by exact_mod_cast hT
    have hst : (s : ℚ) ≤ (t : ℚ) := by exact_mod_cast h
    gcongr

lemma pct100_nonneg (s t : Nat) : 0 ≤ pct100 s t := by
  have h0 : pct100 0 t = 0 := by simp [pct100]
  calc (0 : ℤ) = pct100 0 t := h0.symm
    _ ≤ pct100 s t := pct100_mono t (Nat.zero_le s)

lemma pct100_self {t : Nat} (ht : 1 ≤ t) : pct100 t t = 100 := by
  rw [pct100]
  have ht' : (t : ℚ) ≠ 0 := by
    have : (0 : ℚ) < (t : ℚ) := by exact_mod_cast ht
    exact ne_of_gt this
  rw [div_self ht', one_mul]
  norm_num

lemma pct100_le_100 {s t : Nat} (h : s ≤ t) (ht : 1 ≤ t) : pct100 s t ≤ 100 := by
  calc pct100 s t ≤ pct100 t t := pct100_mono t h
    _ = 100 := pct100_self ht

lemma ratio_pct_nonneg (c s : Nat) : (0 : ℚ) ≤ (c : ℚ) / (s : ℚ) * 100 := by
  positivity

lemma ratio_pct_le_100 {c s : Nat} (h : c ≤ s) (hs : 1 ≤ s) :
    (c : ℚ) / (s : ℚ) * 100 ≤ 100 := by
  have hs' : (0 : ℚ) < (s : ℚ) := by exact_mod_cast hs
  have h1 : (c : ℚ) / (s : ℚ) ≤ 1 := by
    rw [div_le_one hs']
    exact_mod_cast h
  nlinarith

/-! ## Registry lemmas -/

lemma mapGet_mapSet_self : ∀ (reg : Registry) (k : String) (v : TaskInfo),
    mapGet (mapSet reg k v) k = some v := by
  intro reg
  induction reg with
  | nil => intro k v; simp [mapSet, mapGet]
  | cons p rest ih =>
    intro k v
    by_cases h : p.1 = k
    · simp [mapSet, mapGet, h]
    · simp only [mapSet, mapGet]
      rw [if_neg h]
      simp only [mapGet]
      rw [if_neg h]
      exact ih k v

lemma mapGet_mapSet_ne : ∀ (reg : Registry) (k k' : String) (v : TaskInfo),
    k' ≠ k → mapGet (mapSet reg k v) k' = mapGet reg k' := by
  intro reg
  induction reg with
  | nil =>
    intro k k' v h
    simp only [mapSet, mapGet]
    rw [if_neg (fun hh => h hh.symm)]
  | cons p rest ih =>
    intro k k' v h
    by_cases hp : p.1 = k
    · simp only [mapSet]
      rw [if_pos hp]
      simp only [mapGet]
      rw [if_neg (fun hh => h hh.symm), if_neg (by rw [hp]; exact fun hh => h hh.symm)]
    · simp only [mapSet]
      rw [if_neg hp]
      simp only [mapGet]
      by_cases hk : p.1 = k'
      · rw [if_pos hk, if_pos hk]
      · rw [if_neg hk, if_neg hk]
        exact ih k k' v h

lemma mapGet_eq_none_of_not_mem : ∀ (reg : Registry) (k : String),
    k ∉ reg.map Prod.fst → mapGet reg k = none := by
  intro reg
  induction reg with
  | nil => intro k _; rfl
  | cons p rest ih =>
    intro k h
    simp only [List.map_cons, List.mem_cons] at h
    push_neg at h
    simp only [mapGet]
    rw [if_neg (fun hh => h.1 hh.symm)]
    exact ih k h.2

lemma mapGet_mapDelete_self : ∀ (reg : Registry) (k : String),
    (reg.map Prod.fst).Nodup → mapGet (mapDelete reg k) k = none := by
  intro reg
  induction reg with
  | nil => intro k _; rfl
  | cons p rest ih =>
    intro k hnd
    simp only [List.map_cons, List.nodup_cons] at hnd
    simp only [mapDelete]
    by_cases h : p.1 = k
    · rw [if_pos h]
      apply mapGet_eq_none_of_not_mem
      rw [← h]
      exact hnd.1
    · rw [if_neg h]
      simp only [mapGet]
      rw [if_neg h]
      exact ih k hnd.2

/-! ## Lemmas about the old pipeline -/

lemma sendNotification_note (n : PNote) (ok : Bool) :
    (sendNotification n ok).note = n := by
  cases ok <;> rfl

/-- Every loop effect is a progress notification for a step in `[i, i+fuel)`,
and the effects are emitted in step order. -/
lemma execSteps_effects (p : Config) (sOk sd : Nat → Bool) :
    ∀ fuel i ns sr c,
      (∀ ef ∈ (execSteps p sOk sd fuel i ns sr c).1,
        ∃ s, i ≤ s ∧ s < i + fuel ∧ ef.note = mkProgressNote s p.steps) ∧
      List.Chain' (fun a b => a.note.step ≤ b.note.step)
        (execSteps p sOk sd fuel i ns sr c).1 := by
  intro fuel
  induction fuel with
  | zero =>
    intro i ns sr c
    refine ⟨fun ef h => ?_, by simp [execSteps]⟩
    simp [execSteps] at h
  | succ m ih =>
    intro i ns sr c
    simp only [execSteps]
    by_cases hprog : i % p.notificationInterval == 0
    · simp only [hprog, if_true]
      constructor
      · intro ef hef
        rcases List.mem_append.mp hef with hef | hef
        · rcases List.mem_singleton.mp hef with rfl
          exact ⟨i, le_rfl, by omega, sendNotification_note _ _⟩
        · obtain ⟨s, hs1, hs2, hs3⟩ := ((ih (i + 1) (ns + 1) _ i).1) ef hef
          exact ⟨s, by omega, by omega, hs3⟩
      · apply List.Chain'.append
        · simp
        · exact (ih (i + 1) (ns + 1) _ i).2
        · intro x hx y hy
          have hx' : x = sendNotification (mkProgressNote i p.steps) (sd ns) := by
            have := hx
            simp only [List.getLast?_singleton, Option.mem_def, Option.some.injEq] at this
            exact this.symm
          have hy' : y ∈ (execSteps p sOk sd m (i + 1) (ns + 1) _ i).1 :=
            List.mem_of_mem_head? hy
          obtain ⟨s, hs1, _, hs3⟩ := ((ih (i + 1) (ns + 1) _ i).1) y hy'
          rw [hx', hs3, sendNotification_note]
          simp [mkProgressNote]
          omega
    · simp only [hprog, if_false, Bool.false_eq_true]
      constructor
      · intro ef hef
        rcases List.mem_append.mp hef with hef | hef
        · simp at hef
        · obtain ⟨s, hs1, hs2, hs3⟩ := ((ih (i + 1) ns _ i).1) ef hef
          exact ⟨s, by omega, by omega, hs3⟩
      · rw [List.nil_append]
        exact (ih (i + 1) ns _ i).2

/-- The attempted notes and the returned counters of the loop do not depend
on the transmission outcomes. -/
lemma execSteps_sendOk_inv (p : Config) (sOk : Nat → Bool) (f g : Nat → Bool) :
    ∀ fuel i ns sr c,
      (execSteps p sOk f fuel i ns sr c).1.map SendEffect.note =
        (execSteps p sOk g fuel i ns sr c).1.map SendEffect.note ∧
      (execSteps p sOk f fuel i ns sr c).2 =
        (execSteps p sOk g fuel i ns sr c).2 := by
  intro fuel
  induction fuel with
  | zero => intro i ns sr c; exact ⟨rfl, rfl⟩
  | succ m ih =>
    intro i ns sr c
    simp only [execSteps]
    by_cases hprog : i % p.notificationInterval == 0
    · simp only [hprog, if_true, List.map_append, List.map_cons, List.map_nil]
      refine ⟨?_, (ih (i + 1) (ns + 1) _ i).2⟩
      rw [(ih (i + 1) (ns + 1) _ i).1, sendNotification_note, sendNotification_note]
    · simp only [hprog, if_false, Bool.false_eq_true, List.nil_append]
      exact ih (i + 1) ns _ i

/-- The loop events of `runTask` never carry a top-level `progress` param,
whatever the environment. -/
lemma runSteps_events_progressField (cfg : Config) (env : Env) :
    ∀ fuel i cur, ∀ em ∈ (runSteps cfg env fuel i cur).1,
      em.ev.progressField = none := by
  intro fuel
  induction fuel with
  | zero => intro i cur em h; simp [runSteps] at h
  | succ n ih =>
    intro i cur em h
    simp only [runSteps] at h
    by_cases h1 : flagAt env (2 * i - 2)
    · rw [if_pos h1] at h; simp at h
    · rw [if_neg h1] at h
      by_cases h2 : flagAt env (2 * i - 1)
      · rw [if_pos h2] at h; simp at h
      · rw [if_neg h2] at h
        by_cases h3 : env.exnAt = some i
        · rw [if_pos h3] at h; simp at h
        · rw [if_neg h3] at h
          simp only [List.mem_append] at h
          rcases h with h | h
          · simp only [stepEmissions, List.mem_cons] at h
            rcases h with h | h
            · subst h; rfl
            · by_cases hb : cfg.enableSampling && i % cfg.notificationInterval == 0
              · rw [if_pos hb] at h
                by_cases hso : env.samplingOk i
                · rw [if_pos hso] at h
                  rcases List.mem_singleton.mp h with rfl; rfl
                · rw [if_neg hso] at h
                  rcases List.mem_singleton.mp h with rfl; rfl
              · rw [if_neg hb] at h; simp at h
          · exact ih (i + 1) i em h

/-- The event part of a step's emissions, with outcomes erased, depends only
on the sampling outcome. -/
lemma stepEmissions_ev (cfg : Config) (env : Env) (i : Nat) :
    (stepEmissions cfg env i).map Emission.ev =
      progressEvent cfg i ::
        (if cfg.enableSampling && i % cfg.notificationInterval == 0 then
          if env.samplingOk i then [samplingRespEvent cfg i]
          else [samplingErrEvent cfg i]
        else []) := by
  simp only [stepEmissions, List.map_cons]
  by_cases hb : cfg.enableSampling && i % cfg.notificationInterval == 0
  · rw [if_pos hb, if_pos hb]
    by_cases hso : env.samplingOk i
    · rw [if_pos hso, if_pos hso]; rfl
    · rw [if_neg hso, if_neg hso]; rfl
  · rw [if_neg hb, if_neg hb]; rfl

/-- The loop's event trace, final counter and exit kind are unchanged by the
transmission-outcome oracle. -/
lemma runSteps_sendOk_inv (cfg : Config) (env : Env) (f g : EKind → Nat → Bool) :
    ∀ fuel i cur,
      ((runSteps cfg { env with sendOk := f } fuel i cur).1.map Emission.ev =
        (runSteps cfg { env with sendOk := g } fuel i cur).1.map Emission.ev) ∧
      (runSteps cfg { env with sendOk := f } fuel i cur).2 =
        (runSteps cfg { env with sendOk := g } fuel i cur).2 := by
  intro fuel
  induction fuel with
  | zero => intro i cur; exact ⟨rfl, rfl⟩
  | succ n ih =>
    intro i cur
    simp only [runSteps]
    by_cases h1 : flagAt env (2 * i - 2)
    · rw [if_pos (show flagAt { env with sendOk := f } (2 * i - 2) from h1),
        if_pos (show flagAt { env with sendOk := g } (2 * i - 2) from h1)]
      exact ⟨rfl, rfl⟩
    · rw [if_neg (show ¬flagAt { env with sendOk := f } (2 * i - 2) = true from h1),
        if_neg (show ¬flagAt { env with sendOk := g } (2 * i - 2) = true from h1)]
      by_cases h2 : flagAt env (2 * i - 1)
      · rw [if_pos (show flagAt { env with sendOk := f } (2 * i - 1) from h2),
          if_pos (show flagAt { env with sendOk := g } (2 * i - 1) from h2)]
        exact ⟨rfl, rfl⟩
      · rw [if_neg (show ¬flagAt { env with sendOk := f } (2 * i - 1) = true from h2),
          if_neg (show ¬flagAt { env with sendOk := g } (2 * i - 1) = true from h2)]
        by_cases h3 : env.exnAt = some i
        · rw [if_pos h3, if_pos h3]
          exact ⟨rfl, rfl⟩
        · rw [if_neg h3, if_neg h3]
          refine ⟨?_, (ih (i + 1) i).2⟩
          simp only [List.map_append]
          rw [stepEmissions_ev, stepEmissions_ev, (ih (i + 1) i).1]

/-- The effect list of `execute`, written as an explicit cons/append. -/
lemma execute_fst (p : Config) (sOk sd : Nat → Bool) :
    (execute p sOk sd).1 =
      sendNotification (mkStatusNote 0 p.steps) (sd 0) ::
        (execSteps p sOk sd p.steps 1 1 0 0).1 ++
        [sendNotification (mkCompletionNote p.steps
            (execSteps p sOk sd p.steps 1 1 0 0).2.2.2
            (execSteps p sOk sd p.steps 1 1 0 0).2.1
            (execSteps p sOk sd p.steps 1 1 0 0).2.2.1)
          (sd (execSteps p sOk sd p.steps 1 1 0 0).2.1)] := rfl

/-- The result record of `execute`, written with explicit fields. -/
lemma execute_snd (p : Config) (sOk sd : Nat → Bool) :
    (execute p sOk sd).2 =
      { success := true, totalSteps := p.steps,
        completedSteps := (execSteps p sOk sd p.steps 1 1 0 0).2.2.2,
        notificationsSent := (execSteps p sOk sd p.steps 1 1 0 0).2.1 + 1,
        samplingRequests := (execSteps p sOk sd p.steps 1 1 0 0).2.2.1 } := rfl

/-- The full `execute` trace is in step order. -/
lemma execute_chain_step (p : Config) (sOk sd : Nat → Bool) :
    List.Chain' (fun a b : SendEffect => a.note.step ≤ b.note.step)
      (execute p sOk sd).1 := by
  rw [execute_fst]
  apply List.Chain'.append
  · rw [List.chain'_cons']
    constructor
    · intro y hy
      have hy' := List.mem_of_mem_head? hy
      rw [sendNotification_note]
      simp only [mkStatusNote]
      exact Nat.zero_le _
    · exact (execSteps_effects p sOk sd p.steps 1 1 0 0).2
  · simp
  · intro x hx y hy
    have hx' : x ∈ sendNotification (mkStatusNote 0 p.steps) (sd 0) ::
        (execSteps p sOk sd p.steps 1 1 0 0).1 :=
      List.mem_of_mem_getLast? hx
    have hy' : y = sendNotification (mkCompletionNote p.steps
        (execSteps p sOk sd p.steps 1 1 0 0).2.2.2
        (execSteps p sOk sd p.steps 1 1 0 0).2.1
        (execSteps p sOk sd p.steps 1 1 0 0).2.2.1)
        (sd (execSteps p sOk sd p.steps 1 1 0 0).2.1) := by
      have := hy
      simp only [List.head?_cons, Option.mem_def, Option.some.injEq] at this
      exact this.symm
    rw [hy', sendNotification_note]
    rcases List.mem_cons.mp hx' with hx2 | hx2
    · rw [hx2, sendNotification_note]
      simp only [mkStatusNote, mkCompletionNote]
      exact Nat.zero_le _
    · obtain ⟨s, hs1, hs2, hs3⟩ := (execSteps_effects p sOk sd p.steps 1 1 0 0).1 x hx2
      rw [hs3]
      simp only [mkProgressNote, mkCompletionNote]
      omega

/-- Every note of an `execute` run has `percentage = pct100 step totalSteps`
with `totalSteps = p.steps` (for a validated step count the hardcoded 100 of
the completion note coincides with `pct100 p.steps p.steps`). -/
lemma execute_pct_char (p : Config) (sOk sd : Nat → Bool) (hp : 1 ≤ p.steps) :
    ∀ ef ∈ (execute p sOk sd).1, ef.note.percentage = pct100 ef.note.step p.steps := by
  intro ef hef
  rw [execute] at hef
  rcases List.mem_cons.mp hef with hef | hef
  · subst hef
    rw [sendNotification_note]
    rfl
  · rcases List.mem_append.mp hef with hef | hef
    · obtain ⟨s, _, _, hs3⟩ := (execSteps_effects p sOk sd p.steps 1 1 0 0).1 ef hef
      rw [hs3]
      rfl
    · rcases List.mem_singleton.mp hef with rfl
      rw [sendNotification_note]
      simp only [mkCompletionNote]
      exact (pct100_self hp).symm

/-- The `execute` trace ends with the completion note. -/
lemma execute_getLast (p : Config) (sOk sd : Nat → Bool) :
    ∃ n : PNote, (executeNotes p sOk sd).getLast? = some n ∧
      n.kind = NKind.completion ∧ n.percentage = 100 ∧ n.step = p.steps := by
  refine ⟨mkCompletionNote p.steps
      (execSteps p sOk sd p.steps 1 1 0 0).2.2.2
      (execSteps p sOk sd p.steps 1 1 0 0).2.1
      (execSteps p sOk sd p.steps 1 1 0 0).2.2.1, ?_, rfl, rfl, rfl⟩
  rw [executeNotes, execute_fst, List.map_append]
  simp only [List.map_cons, List.map_nil, sendNotification_note]
  rw [List.getLast?_concat]

/-- Transferring step order to percentage order along the
`percentage = pct100 step T` characterisation. -/
lemma chain_pct_of_chain_step (T : Nat) :
    ∀ l : List SendEffect,
      (∀ ef ∈ l, ef.note.percentage = pct100 ef.note.step T) →
      List.Chain' (fun a b : SendEffect => a.note.step ≤ b.note.step) l →
      List.Chain' (fun a b : SendEffect =>
        a.note.percentage ≤ b.note.percentage) l := by
  intro l
  induction l with
  | nil => intro _ _; simp
  | cons a l2 ih =>
    intro hmem hc
    cases l2 with
    | nil => simp
    | cons b l3 =>
      rw [List.chain'_cons] at hc ⊢
      refine ⟨?_, ih (fun n hn => hmem n (List.mem_cons_of_mem a hn)) hc.2⟩
      rw [hmem a (List.mem_cons_self a _), hmem b (List.mem_cons_of_mem a (List.mem_cons_self b _))]
      exact pct100_mono T hc.1

/-! ## Store lemmas for the client notification history -/

lemma readArr_writeArr_self {s : Store} {r : Nat} (h : r < s.arrays.length)
    (v : List PNote) : readArr (writeArr s r v) r = v := by
  simp [readArr, writeArr, List.getD_eq_getElem?_getD,
    List.getElem?_set_eq_of_lt v h]

lemma readArr_writeArr_ne {s : Store} {r r' : Nat} (h : r' ≠ r)
    (v : List PNote) : readArr (writeArr s r' v) r = readArr s r := by
  simp [readArr, writeArr, List.getD_eq_getElem?_getD, List.getElem?_set_ne h]

lemma readArr_allocArr {s : Store} {r : Nat} (h : r < s.arrays.length)
    (v : List PNote) : readArr (allocArr s v).1 r = readArr s r := by
  simp [readArr, allocArr, List.getD_eq_getElem?_getD, List.getElem?_append, h]

lemma readArr_allocArr_fresh (s : Store) (v : List PNote) :
    readArr (allocArr s v).1 (allocArr s v).2 = v := by
  simp [readArr, allocArr, List.getD_eq_getElem?_getD]

/-- Event-level closed form of an uncancelled, failure-free run. -/
lemma runTaskEvents_no_cancel (cfg : Config) (env : Env)
    (hc : env.cancelAt = none) (he : env.exnAt = none) :
    runTaskEvents cfg env =
      startEvent cfg :: (rangeEmissions cfg env 1 cfg.steps).map Emission.ev ++
        [completionEvent cfg] := by
  rw [runTaskEvents, runTaskEmissions_no_cancel cfg env hc he]
  simp [send]

/-- Whatever the environment, every `progress` param value carried by an
event of `runTask` lies in `[0, 100]` (the loop events carry none; the start,
completion, cancelled and error notifications carry `0`, `100` and
`(currentStep / steps) * 100` with `currentStep ≤ steps`). -/
lemma runTaskEvents_progressField_bounds (cfg : Config) (env : Env)
    (hsteps : 1 ≤ cfg.steps) :
    ∀ e ∈ runTaskEvents cfg env, ∀ q, e.progressField = some q →
      0 ≤ q ∧ q ≤ 100 := by
  have hcur : (runSteps cfg env cfg.steps 1 0).2.1 ≤ cfg.steps := by
    have h := runSteps_cur_le cfg env cfg.steps 1 0
    omega
  intro e he q hq
  rw [runTaskEvents, runTaskEmissions] at he
  by_cases h0 : env.exnAt = some 0
  · rw [if_pos h0] at he
    simp only [List.map_cons, List.map_nil, List.mem_singleton] at he
    subst he
    simp only [send, errorEvent, Option.some.injEq] at hq
    subst hq
    exact ⟨ratio_pct_nonneg 0 cfg.steps, ratio_pct_le_100 (Nat.zero_le _) hsteps⟩
  · rw [if_neg h0] at he
    simp only [List.map_append, List.map_cons, List.mem_append, List.mem_cons] at he
    rcases he with (he | he) | he
    · subst he
      simp only [send, startEvent, Option.some.injEq] at hq
      subst hq
      norm_num
    · obtain ⟨em, hem, rfl⟩ := List.mem_map.mp he
      have := runSteps_events_progressField cfg env cfg.steps 1 0 em hem
      rw [this] at hq
      exact absurd hq (by simp)
    · rcases he with he | he
      swap
      · simp at he
      subst he
      simp only [send] at hq
      by_cases h1 : (runSteps cfg env cfg.steps 1 0).2.2 = ExitKind.threw
      · rw [if_pos h1] at hq
        simp only [send, errorEvent, Option.some.injEq] at hq
        subst hq
        exact ⟨ratio_pct_nonneg _ _, ratio_pct_le_100 hcur hsteps⟩
      · rw [if_neg h1] at hq
        by_cases h2 : flagAt env (2 * cfg.steps)
        · rw [if_pos h2] at hq
          simp only [send, cancelledEvent, Option.some.injEq] at hq
          subst hq
          exact ⟨ratio_pct_nonneg _ _, ratio_pct_le_100 hcur hsteps⟩
        · rw [if_neg h2] at hq
          simp only [send, completionEvent, Option.some.injEq] at hq
          subst hq
          norm_num

/-! ## Claim theorems -/

/-- C1: the claim states that a validated, never-cancelled task emits a
progress event exactly for the steps `s ∈ [1, steps]` with
`s % notificationInterval == 0` and for no other step.  The current server
(src/src/server/index.ts) contradicts this — and its own schema description
"Send notification every N steps" (line 15) — by emitting a progress
notification on every step; the interval gates only the sampling exchange.
At the failing input `{steps: 2, notificationInterval: 2, delayMs: 100,
enableSampling: false}` with no cancellation, the run emits progress events
for steps 1 and 2, although `1 % 2 ≠ 0`; the start and single terminal
completion events are as claimed. -/
theorem c1_progress_not_gated_by_interval :
    1 % cfg22.notificationInterval ≠ 0 ∧
    runTaskEvents cfg22 benign =
      [startEvent cfg22, progressEvent cfg22 1, progressEvent cfg22 2,
        completionEvent cfg22] := by
  constructor
  · decide
  · rfl

/-- C2 counterexample: at `{steps: 3, notificationInterval: 1,
enableSampling: false}` with the cancellation flag first observed at the
post-wait check of iteration 2 (it was set during the step-2 delay, hence
before the 2nd step was performed), the code emits no progress event for any
step ≥ 2 — but the cancelled event's step field is 2, the index of the
broken-out step, not the last completed step 1, because `currentStep` was
advanced to 2 before the wait (index.ts line 177).  This refutes the claim
that the cancelled event's step equals the last completed step and that the
counter is not advanced for the broken-out step. -/
theorem c2_counterexample :
    runTaskEvents cfg31 envCancelW2 =
      [startEvent cfg31, progressEvent cfg31 1, cancelledEvent cfg31 2] ∧
    (∀ e ∈ runTaskEvents cfg31 envCancelW2,
      e.kind = EKind.progress → e.step ≤ 1) ∧
    (cancelledEvent cfg31 2).step = 2 := by
  refine ⟨rfl, by decide, rfl⟩

/-- C2 (amended): if the cancellation flag is first observed at the post-wait
check of iteration `N`, no event is emitted for any step ≥ N, but the step
counter was already advanced to `N` before the wait, and the single cancelled
event carries step `N` (one more than the last completed step); if the flag
is first observed at the loop guard of iteration `N`, the counter stays at
`N - 1` and the cancelled event carries step `N - 1` (the last completed
step).  In both cases every progress event has step < N. -/
theorem c2_cancellation_cutoff (cfg : Config) (env : Env) (N : Nat)
    (hN1 : 1 ≤ N) (hN2 : N ≤ cfg.steps) (he : env.exnAt = none) :
    (env.cancelAt = some (2 * N - 1) →
      runTaskEmissions cfg env =
        send env (startEvent cfg) :: rangeEmissions cfg env 1 (N - 1) ++
          [send env (cancelledEvent cfg N)] ∧
      ∀ e ∈ runTaskEvents cfg env, e.kind = EKind.progress → e.step < N) ∧
    (env.cancelAt = some (2 * N - 2) →
      runTaskEmissions cfg env =
        send env (startEvent cfg) :: rangeEmissions cfg env 1 (N - 1) ++
          [send env (cancelledEvent cfg (N - 1))] ∧
      ∀ e ∈ runTaskEvents cfg env, e.kind = EKind.progress → e.step < N) := by
  constructor
  · intro hc
    have hclosed := runTaskEmissions_cancel_post cfg env N hc he hN1 hN2
    refine ⟨hclosed, ?_⟩
    intro e hmem hkind
    rw [runTaskEvents, hclosed] at hmem
    simp only [List.map_append, List.map_cons, List.map_nil, List.mem_append,
      List.mem_cons] at hmem
    rcases hmem with (hmem | hmem) | hmem
    · rw [hmem] at hkind; simp [send, startEvent] at hkind
    · have := rangeEmissions_kinds cfg env (N - 1) 1 e hmem
      omega
    · rcases hmem with hmem | hmem
      · rw [hmem] at hkind; simp [send, cancelledEvent] at hkind
      · simp at hmem
  · intro hc
    have hclosed := runTaskEmissions_cancel_guard cfg env N hc he hN1 hN2
    refine ⟨hclosed, ?_⟩
    intro e hmem hkind
    rw [runTaskEvents, hclosed] at hmem
    simp only [List.map_append, List.map_cons, List.map_nil, List.mem_append,
      List.mem_cons] at hmem
    rcases hmem with (hmem | hmem) | hmem
    · rw [hmem] at hkind; simp [send, startEvent] at hkind
    · have := rangeEmissions_kinds cfg env (N - 1) 1 e hmem
      omega
    · rcases hmem with hmem | hmem
      · rw [hmem] at hkind; simp [send, cancelledEvent] at hkind
      · simp at hmem

/-- C2 witness: the amended statement applied at the concrete cancelled run of
`c2_counterexample` (`N = 2`, flag observed at the post-wait check). -/
theorem c2_cancellation_cutoff_witness :
    runTaskEmissions cfg31 envCancelW2 =
      send envCancelW2 (startEvent cfg31) ::
        rangeEmissions cfg31 envCancelW2 1 (2 - 1) ++
        [send envCancelW2 (cancelledEvent cfg31 2)] ∧
    ∀ e ∈ runTaskEvents cfg31 envCancelW2,
      e.kind = EKind.progress → e.step < 2 :=
  (c2_cancellation_cutoff cfg31 envCancelW2 2 (by decide) (by decide) rfl).1 rfl

/-- C3: on every execution path of `runTask` — normal completion,
cancellation at any observation point, or an unexpected failure at any step —
the action trace performs the registry removal exactly once, as its final
action: the single `runningTasks.delete(taskId)` lives in the `finally` block
(index.ts lines 335-338), and the try/catch body performs no registry
operation. -/
theorem c3_registry_removed_once (cfg : Config) (env : Env) :
    (runTaskActions cfg env).countP isRemove = 1 ∧
    (runTaskActions cfg env).getLast? = some Action.removeTask := by
  constructor
  · rw [runTaskActions, List.countP_append, List.countP_map]
    have h1 : (runTaskEmissions cfg env).countP (isRemove ∘ Action.notify) = 0 := by
      apply List.countP_eq_zero.mpr
      intro em _
      simp [isRemove, Function.comp]
    rw [h1]
    rfl
  · rw [runTaskActions, List.getLast?_concat]

/-- C4: `cancel_task` on a registered task invokes the handle's `cancel()`
(setting the executor's cancellation flag), removes the entry from
`runningTasks` and returns a success result; on an unknown (or
already-terminated, hence already-removed) task id it returns the non-fatal
`isError` "not found" result — distinguishable from success — emits no
notification, leaves the registry untouched, and never throws (the handler is
a total function; `Map.get`/`Map.delete` cannot fail). -/
theorem c4_cancel_task (reg : Registry) (tid : String)
    (hnd : (reg.map Prod.fst).Nodup) :
    (mapGet reg tid ≠ none →
      (cancelTask reg tid).reply.isError = false ∧
      (cancelTask reg tid).cancelInvoked = true ∧
      (cancelTask reg tid).registry = mapDelete reg tid ∧
      mapGet (cancelTask reg tid).registry tid = none ∧
      (cancelTask reg tid).emitted = []) ∧
    (mapGet reg tid = none →
      (cancelTask reg tid).reply.isError = true ∧
      (cancelTask reg tid).cancelInvoked = false ∧
      (cancelTask reg tid).registry = reg ∧
      (cancelTask reg tid).emitted = []) := by
  constructor
  · intro hfound
    rcases hm : mapGet reg tid with _ | info
    · exact absurd hm hfound
    · rw [cancelTask, hm]
      exact ⟨rfl, rfl, rfl, mapGet_mapDelete_self reg tid hnd, rfl⟩
  · intro hnone
    rw [cancelTask, hnone]
    exact ⟨rfl, rfl, rfl, rfl⟩

/-- C4 witness: cancelling the registered `task-1` succeeds and empties the
registry; cancelling the unknown `task-2` returns the error-marked "not
found" result and leaves the registry unchanged. -/
theorem c4_cancel_task_witness :
    ((cancelTask reg1 "task-1").reply.isError = false ∧
      (cancelTask reg1 "task-1").cancelInvoked = true ∧
      (cancelTask reg1 "task-1").registry = mapDelete reg1 "task-1" ∧
      mapGet (cancelTask reg1 "task-1").registry "task-1" = none ∧
      (cancelTask reg1 "task-1").emitted = []) ∧
    ((cancelTask reg1 "task-2").reply.isError = true ∧
      (cancelTask reg1 "task-2").cancelInvoked = false ∧
      (cancelTask reg1 "task-2").registry = reg1 ∧
      (cancelTask reg1 "task-2").emitted = []) :=
  ⟨(c4_cancel_task reg1 "task-1" (by decide)).1 (by decide),
   (c4_cancel_task reg1 "task-2" (by decide)).2 (by decide)⟩

/-- C5: with sampling enabled and the task never cancelled and free of
unexpected failures, sampling failures are converted into `sampling_error`
events at the failing cadence steps (fourth conjunct) and change nothing
else: the progress events are exactly one per step `1..steps` regardless of
the sampling outcomes (first conjunct — the right-hand side does not mention
the sampling oracle), the final event is the terminal completion event, and
no `error` event is ever emitted (the task never reaches the Errored state). -/
theorem c5_sampling_failure_contained (cfg : Config) (env : Env)
    (_hv : Validated cfg) (hs : cfg.enableSampling = true)
    (hc : env.cancelAt = none) (he : env.exnAt = none) :
    ((runTaskEvents cfg env).filter (fun e => decide (e.kind = EKind.progress)) =
      (List.range' 1 cfg.steps).map (progressEvent cfg)) ∧
    (runTaskEvents cfg env).getLast? = some (completionEvent cfg) ∧
    (∀ e ∈ runTaskEvents cfg env, e.kind ≠ EKind.error) ∧
    (∀ j, 1 ≤ j → j ≤ cfg.steps → j % cfg.notificationInterval = 0 →
      env.samplingOk j = false →
      samplingErrEvent cfg j ∈ runTaskEvents cfg env) := by
  rw [runTaskEvents_no_cancel cfg env hc he]
  refine ⟨?_, ?_, ?_, ?_⟩
  · rw [List.filter_append, List.filter_cons]
    rw [if_neg (by simp [startEvent])]
    rw [rangeEmissions_progress cfg env cfg.steps 1]
    rw [List.filter_cons, if_neg (by simp [completionEvent])]
    simp
  · rw [List.getLast?_concat]
  · intro e hmem
    rcases List.mem_append.mp hmem with hmem | hmem
    · rcases List.mem_cons.mp hmem with hmem | hmem
      · rw [hmem]; simp [startEvent]
      · have := rangeEmissions_kinds cfg env cfg.steps 1 e hmem
        rcases this.1 with h | h | h <;> rw [h] <;> simp
    · rcases List.mem_singleton.mp hmem with rfl
      simp [completionEvent]
  · intro j h1 h2 h3 h4
    apply List.mem_append_left
    apply List.mem_cons_of_mem
    exact rangeEmissions_samplingErr cfg env hs cfg.steps 1 j h1 (by omega) h3 h4

/-- C5 witness: at `{steps: 2, notificationInterval: 1, enableSampling:
true}` with every sampling exchange failing, the terminal event is still the
completion event and a `sampling_error` event is present for step 2. -/
theorem c5_sampling_failure_contained_witness :
    (runTaskEvents cfg21s envAllSamplingFail).getLast? =
      some (completionEvent cfg21s) ∧
    samplingErrEvent cfg21s 2 ∈ runTaskEvents cfg21s envAllSamplingFail :=
  ⟨(c5_sampling_failure_contained cfg21s envAllSamplingFail
      ⟨by decide, by decide, by decide, by decide, by decide⟩ rfl rfl rfl).2.1,
   (c5_sampling_failure_contained cfg21s envAllSamplingFail
      ⟨by decide, by decide, by decide, by decide, by decide⟩ rfl rfl rfl).2.2.2
     2 (by decide) (by decide) (by decide) rfl⟩

/-- C6 counterexample: the cancelled notification emitted at `{steps: 3,
notificationInterval: 1}` with the task cancelled during the step-2 wait
carries the top-level `progress` value `(2 / 3) * 100 = 200/3 ≈ 66.67`
(index.ts line 302) — not an integer (its reduced denominator is 3, not 1)
and not `round(step / totalSteps × 100) = 67`.  This refutes the claim that
every emitted percentage value is an integer obtained by rounding. -/
theorem c6_counterexample :
    cancelledEvent cfg31 2 ∈ runTaskEvents cfg31 envCancelW2 ∧
    (cancelledEvent cfg31 2).progressField = some (200 / 3 : ℚ) ∧
    (200 / 3 : ℚ).den ≠ 1 ∧ (200 / 3 : ℚ) ≠ ((67 : ℤ) : ℚ) := by
  refine ⟨?_, ?_, ?_, by norm_num⟩
  · have h : runTaskEvents cfg31 envCancelW2 =
        [startEvent cfg31, progressEvent cfg31 1, cancelledEvent cfg31 2] := rfl
    rw [h]
    exact List.mem_cons_of_mem _ (List.mem_cons_of_mem _ (List.mem_cons_self _ _))
  · norm_num [cancelledEvent, cfg31]
  · have h : (200 / 3 : ℚ).den = 3 := by norm_num [Rat.den]
    omega

/-- C6 (amended): percentages computed by the old-implementation
`ProgressNotifier` are `Math.round((step / totalSteps) * 100)` and are
integers in `[0, 100]` whenever `step ≤ totalSteps` and `totalSteps ≥ 1`
(rounding of a well-defined division, since validation enforces
`totalSteps ≥ 1`); the current server's events carry a top-level `progress`
value only on the start (0), completion (100), cancelled and error
notifications, and while the latter two are unrounded
`(currentStep / steps) * 100`, every carried value still lies in `[0, 100]`. -/
theorem c6_percentage_semantics (cfg : Config) (env : Env) (hv : Validated cfg) :
    (∀ s t : Nat, s ≤ t → 1 ≤ t → 0 ≤ pct100 s t ∧ pct100 s t ≤ 100) ∧
    (∀ e ∈ runTaskEvents cfg env, ∀ q, e.progressField = some q →
      0 ≤ q ∧ q ≤ 100) :=
  ⟨fun _ t hst ht => ⟨pct100_nonneg _ t, pct100_le_100 hst ht⟩,
   runTaskEvents_progressField_bounds cfg env hv.steps_pos⟩

/-- C6 witness: the amended statement applied at `{steps: 3}` — the rounded
`pct100 1 3 = 33` lies in `[0, 100]`, and the start event's carried value 0
lies in `[0, 100]`. -/
theorem c6_percentage_semantics_witness :
    (0 ≤ pct100 1 3 ∧ pct100 1 3 ≤ 100) ∧
    (0 ≤ (0 : ℚ) ∧ (0 : ℚ) ≤ 100) :=
  ⟨(c6_percentage_semantics cfg31 envCancelW2
      ⟨by decide, by decide, by decide, by decide, by decide⟩).1
     1 3 (by decide) (by decide),
   (c6_percentage_semantics cfg31 envCancelW2
      ⟨by decide, by decide, by decide, by decide, by decide⟩).2
     (startEvent cfg31) (List.mem_cons_self _ _) 0 rfl⟩

/-- C7 counterexample: at `{steps: 3, notificationInterval: 1}` the old
pipeline emits `status(0%), progress(33), progress(67), progress(100),
completion(100)`; the step-3 progress note has percentage 100 but is not the
completion event, refuting the claim that the percentage equals 100 exactly
at the completion event. -/
theorem c7_counterexample :
    executeNotes cfg31 (fun _ => true) (fun _ => true) =
      [mkStatusNote 0 3, mkProgressNote 1 3, mkProgressNote 2 3,
        mkProgressNote 3 3, mkCompletionNote 3 3 4 0] ∧
    (mkProgressNote 3 3).percentage = 100 ∧
    (mkProgressNote 3 3).kind ≠ NKind.completion := by
  refine ⟨rfl, ?_, by decide⟩
  norm_num [mkProgressNote, pct100, round_eq]

/-- C7 (amended): across the ordered event sequence of one task of the old
pipeline the percentage field is monotonically non-decreasing, and the final
event is the completion event with percentage exactly 100; a progress event
may also reach 100 (see `c7_counterexample`), so 100 is attained at, but not
exclusively at, completion. -/
theorem c7_percentage_monotone (p : Config) (samplingOk sendOk : Nat → Bool)
    (hp : 1 ≤ p.steps) :
    List.Chain' (fun a b : PNote => a.percentage ≤ b.percentage)
      (executeNotes p samplingOk sendOk) ∧
    ∃ n : PNote, (executeNotes p samplingOk sendOk).getLast? = some n ∧
      n.kind = NKind.completion ∧ n.percentage = 100 ∧ n.step = p.steps := by
  constructor
  · rw [executeNotes, List.chain'_map]
    exact chain_pct_of_chain_step p.steps (execute p samplingOk sendOk).1
      (execute_pct_char p samplingOk sendOk hp)
      (execute_chain_step p samplingOk sendOk)
  · exact execute_getLast p samplingOk sendOk

/-- C7 witness: the amended statement applied at `{steps: 3,
notificationInterval: 1, enableSampling: false}`. -/
theorem c7_percentage_monotone_witness :
    List.Chain' (fun a b : PNote => a.percentage ≤ b.percentage)
      (executeNotes cfg31 (fun _ => true) (fun _ => true)) ∧
    ∃ n : PNote,
      (executeNotes cfg31 (fun _ => true) (fun _ => true)).getLast? = some n ∧
      n.kind = NKind.completion ∧ n.percentage = 100 ∧ n.step = cfg31.steps :=
  c7_percentage_monotone cfg31 (fun _ => true) (fun _ => true) (by decide)

/-- C8 counterexample: registering a task id that is already present
(`Map.set`, index.ts line 81) silently replaces the stored handle and signals
nothing — `registerTask` has no failure outcome at all, and no
`DuplicateTaskError` exists anywhere in the repository.  This refutes the
claim that registration fails on a duplicate and never silently overwrites. -/
theorem c8_counterexample :
    registerTask reg1 "task-1" infoB = [("task-1", infoB)] ∧
    mapGet (registerTask reg1 "task-1" infoB) "task-1" = some infoB ∧
    infoB ≠ infoA := by
  refine ⟨rfl, rfl, by decide⟩

/-- C8 (amended): `register` inserts via `Map.set`: afterwards the registry
maps the task id to the new handle — silently overwriting any existing entry
— and every other key is untouched; no duplicate check or `DuplicateTaskError`
exists. -/
theorem c8_register_overwrites (reg : Registry) (tid : String)
    (info : TaskInfo) :
    mapGet (registerTask reg tid info) tid = some info ∧
    ∀ k, k ≠ tid → mapGet (registerTask reg tid info) k = mapGet reg k :=
  ⟨mapGet_mapSet_self reg tid info,
   fun k hk => mapGet_mapSet_ne reg tid k info hk⟩

/-- C8 witness: the amended statement applied to a registry holding `task-1`:
registering `task-9` stores it and leaves `task-1` unchanged. -/
theorem c8_register_overwrites_witness :
    mapGet (registerTask reg1 "task-9" infoB) "task-9" = some infoB ∧
    mapGet (registerTask reg1 "task-9" infoB) "task-1" = mapGet reg1 "task-1" :=
  ⟨(c8_register_overwrites reg1 "task-9" infoB).1,
   (c8_register_overwrites reg1 "task-9" infoB).2 "task-1" (by decide)⟩

/-- C9: a transmission failure is contained in the emitter and never reaches
the step executor.  (1) `ProgressNotifier.sendNotification` returns normally
for every outcome of the awaited transport send, logging the failure locally
(progressNotifier.ts lines 106-115).  (2) In the old pipeline, the attempted
notification sequence, the returned result, and its `success = true` flag are
identical whatever the transmission outcomes: a throwing send aborts nothing
and changes no subsequent event.  (3) In the current server, `runTask`'s
event trace is likewise independent of the transmission outcomes (the sends
are not awaited; the per-step progress send additionally catches synchronous
throws, index.ts lines 189-208), so no send failure moves the task to the
Errored state. -/
theorem c9_transmission_failure_contained :
    (∀ (n : PNote) (ok : Bool), (sendNotification n ok).note = n ∧
      ((sendNotification n ok).loggedError = true ↔
        transportSend n ok ≠ Except.ok n)) ∧
    (∀ (p : Config) (samplingOk f g : Nat → Bool),
      executeNotes p samplingOk f = executeNotes p samplingOk g ∧
      (execute p samplingOk f).2 = (execute p samplingOk g).2 ∧
      (execute p samplingOk f).2.success = true) ∧
    (∀ (cfg : Config) (env : Env) (f g : EKind → Nat → Bool),
      runTaskEvents cfg { env with sendOk := f } =
        runTaskEvents cfg { env with sendOk := g }) := by
  refine ⟨?_, ?_, ?_⟩
  · intro n ok
    cases ok <;> simp [sendNotification, transportSend]
  · intro p samplingOk f g
    have h := execSteps_sendOk_inv p samplingOk f g p.steps 1 1 0 0
    refine ⟨?_, ?_, rfl⟩
    · rw [executeNotes, executeNotes, execute_fst p samplingOk f,
        execute_fst p samplingOk g]
      simp only [List.map_append, List.map_cons, List.map_nil,
        sendNotification_note]
      rw [h.1, h.2]
    · rw [execute_snd p samplingOk f, execute_snd p samplingOk g, h.2]
  · intro cfg env f g
    have h := runSteps_sendOk_inv cfg env f g cfg.steps 1 0
    have hfx : ({ env with sendOk := f } : Env).exnAt = env.exnAt := rfl
    have hgx : ({ env with sendOk := g } : Env).exnAt = env.exnAt := rfl
    have hff : flagAt { env with sendOk := f } = flagAt env := rfl
    have hgf : flagAt { env with sendOk := g } = flagAt env := rfl
    rw [runTaskEvents, runTaskEvents, runTaskEmissions, runTaskEmissions,
      hfx, hgx, hff, hgf]
    by_cases h0 : env.exnAt = some 0
    · rw [if_pos h0, if_pos h0]
      rfl
    · rw [if_neg h0, if_neg h0]
      simp only [List.map_append, List.map_cons, List.map_nil, send]
      rw [h.1, h.2]

/-- C10: `NotificationHandler` stores each handled notification by appending
exactly one entry to its internal `this.notifications` array, and
`getNotificationHistory` returns a *fresh copy* (`[...this.notifications]`):
the returned reference is distinct from the internal one, dereferences to the
same contents, and mutating the array behind it leaves both the stored
history and every `getStatistics` count unchanged. -/
theorem c10_history_is_a_copy (s : Store) (h : NHandler) (p : PNote)
    (v : List PNote) (href : h.ref < s.arrays.length) :
    (readArr (h.handleNotification s p) h.ref = readArr s h.ref ++ [p]) ∧
    (h.getNotificationHistory s).2 ≠ h.ref ∧
    readArr (h.getNotificationHistory s).1 (h.getNotificationHistory s).2 =
      readArr s h.ref ∧
    readArr (writeArr (h.getNotificationHistory s).1
        (h.getNotificationHistory s).2 v) h.ref = readArr s h.ref ∧
    (∀ k, NHandler.getStatistics h
        (writeArr (h.getNotificationHistory s).1
          (h.getNotificationHistory s).2 v) k =
      NHandler.getStatistics h s k) := by
  have hfresh : (h.getNotificationHistory s).2 = s.arrays.length := rfl
  have hne : (h.getNotificationHistory s).2 ≠ h.ref := by
    rw [hfresh]; omega
  have hread : readArr (writeArr (h.getNotificationHistory s).1
      (h.getNotificationHistory s).2 v) h.ref = readArr s h.ref := by
    rw [readArr_writeArr_ne hne]
    exact readArr_allocArr href _
  refine ⟨?_, hne, ?_, hread, ?_⟩
  · rw [NHandler.handleNotification, readArr_writeArr_self href]
  · exact readArr_allocArr_fresh s (readArr s h.ref)
  · intro k
    rw [NHandler.getStatistics, NHandler.getStatistics, hread]

/-- C10 witness: the statement applied to a store holding one notification
under the handler's reference 0, appending `note1` and mutating a retrieved
history copy to the empty array. -/
theorem c10_history_is_a_copy_witness :
    (readArr (handler0.handleNotification store0 note1) handler0.ref =
      readArr store0 handler0.ref ++ [note1]) ∧
    (handler0.getNotificationHistory store0).2 ≠ handler0.ref ∧
    (NHandler.getStatistics handler0
        (writeArr (handler0.getNotificationHistory store0).1
          (handler0.getNotificationHistory store0).2 []) NKind.status =
      NHandler.getStatistics handler0 store0 NKind.status) :=
  ⟨(c10_history_is_a_copy store0 handler0 note1 [] (by decide)).1,
   (c10_history_is_a_copy store0 handler0 note1 [] (by decide)).2.1,
   (c10_history_is_a_copy store0 handler0 note1 [] (by decide)).2.2.2.2
     NKind.status⟩

end McpNotify

